import Mathlib

/-!
Verification of the Cayenne LPP decoder (`src/decoder.cpp`, `include/cayene/decoder.hpp`,
`data_type.hpp`, `cayene_v1_definitions.hpp`).

The C++ code is shallowly embedded as follows.

* Byte buffers are `List Nat`; each read of a `uint8_t` element reduces the value
  modulo 256, which is the identity on genuine byte buffers.
* `nlohmann::json` values are the inductive `JVal`; JSON numbers (C++ `double`) are
  modelled as exact rationals.  Every floating-point operation the decoder performs is
  a single correctly-rounded division of exactly representable operands, so equalities
  between the exact rational results transport to equalities of the IEEE-754 doubles
  (rounding is a function).
* `nlohmann::json` objects are backed by `std::map<std::string, json>`, i.e. an
  association list strictly sorted by the lexicographic byte order of the keys.
  `mapInsert` models `operator[]` followed by assignment (insert-or-assign), and
  `strLtB` models `std::less<std::string>` (lexicographic comparison, here on the
  character list of the string, which coincides with byte order for the ASCII keys
  this library generates).
* The registry `std::unordered_map<uint8_t, DataType> data_types_` is a list of
  `DataType` entries with unique `type_id`s; `lookup` models `find`/`at`/`contains`.
* `std::expected<Json, Error>` is `Except Error JsonObj`; `Error` is the five-value
  enumeration documented in the repository README and used in `decoder.cpp`.
* The frame loop of `Decoder::decode` is `decodeAux`, structurally recursive on a
  fuel argument.  Every iteration of the C++ loop consumes at least two bytes, so any
  fuel of at least half the buffer length (plus one) is sufficient; `decode` passes
  the buffer length.  The fuel-exhaustion branch is unreachable under that discipline
  (`decodeAux_fuel_irrel` below makes this precise).
* `decodeInstrAux` is the same walk instrumented with the loop-iteration count and
  with the registry state threaded through each step, used to verify the iteration
  bound and that `decode` never mutates the registry.
-/

namespace Cayene

/-- JSON-like values produced by the decoder: unsigned integers, numbers (C++
`double`, modelled as exact rationals) and objects as key-sorted association lists
(`nlohmann::json` objects are `std::map`-backed). -/
inductive JVal where
  | int : Nat → JVal
  | num : ℚ → JVal
  | obj : List (String × JVal) → JVal

/-- A JSON object: association list from key to value, kept strictly sorted by
`strLtB` (the model of `std::less<std::string>`). -/
abbrev JsonObj := List (String × JVal)

/-- Lexicographic order on character lists: the model of byte-wise `operator<` on
`std::string` (identical for the ASCII keys this library builds). -/
def charListLt : List Char → List Char → Bool
  | [], [] => false
  | [], _ :: _ => true
  | _ :: _, [] => false
  | a :: as, b :: bs => if a < b then true else if b < a then false else charListLt as bs

/-- String comparison used by the `std::map` inside `nlohmann::json`. -/
def strLtB (a b : String) : Bool := charListLt a.data b.data

/-- Model of `json::operator[](key) = value` on an object: insert-or-assign into the
key-sorted association list, exactly as `std::map::operator[]` does. -/
def mapInsert (k : String) (v : JVal) : JsonObj → JsonObj
  | [] => [(k, v)]
  | (k', v') :: rest =>
    if strLtB k k' then (k, v) :: (k', v') :: rest
    else if strLtB k' k then (k', v') :: mapInsert k v rest
    else (k, v) :: rest

/-- The error enumeration of `include/cayene/error.hpp`, as documented in the README
(`None`, `Unexpected`, `UnknownDataType`, `BadPayloadFormat`, `PayloadEmpty`) and used
in `decoder.cpp`; the values are bare enumerators with no diagnostic payload. -/
inductive Error where
  | none
  | unexpected
  | unknownDataType
  | badPayloadFormat
  | payloadEmpty
deriving DecidableEq

/-- `cayene::DataType` from `data_type.hpp`: fields in declaration order
(`name`, `size`, `type_id`, `standard`, `decoder_function`).  The possibly-null
`std::function` is an `Option`. -/
structure DataType where
  name : String
  size : Nat
  type_id : Nat
  standard : Bool
  decoder_function : Option (List Nat → JVal)

/-- The decoder's registry `data_types_` (an `std::unordered_map` keyed by
`type_id`, modelled as a list with unique ids). -/
abbrev Registry := List DataType

/-- `definitions::get_v1_standard_data_types()` from `cayene_v1_definitions.hpp`:
the twelve standard descriptors, in source order. -/
def get_v1_standard_data_types : List DataType :=
  [ ⟨"Digital Input", 1, 0x00, true, Option.none⟩,
    ⟨"Digital Output", 1, 0x01, true, Option.none⟩,
    ⟨"Analog Input", 2, 0x02, true, Option.none⟩,
    ⟨"Analog Output", 2, 0x03, true, Option.none⟩,
    ⟨"Luminosity", 2, 0x65, true, Option.none⟩,
    ⟨"Presence", 1, 0x66, true, Option.none⟩,
    ⟨"Temperature", 2, 0x67, true, Option.none⟩,
    ⟨"Humidity", 2, 0x68, true, Option.none⟩,
    ⟨"Accelerometer", 6, 0x71, true, Option.none⟩,
    ⟨"Barometer", 2, 0x73, true, Option.none⟩,
    ⟨"Gyrometer", 6, 0x86, true, Option.none⟩,
    ⟨"GPS", 9, 0x88, true, Option.none⟩ ]

/-- The registry of a freshly constructed `Decoder` (the constructor emplaces the
twelve standard types). -/
def stdRegistry : Registry := get_v1_standard_data_types

/-- `data_types_.find(type_id)` / `data_types_.at(type_id)`. -/
def lookup (reg : Registry) (id : Nat) : Option DataType :=
  reg.find? (fun dt => dt.type_id == id)

/-- `Decoder::has_type` / `data_types_.contains(type_id)`. -/
def hasType (reg : Registry) (id : Nat) : Bool := (lookup reg id).isSome

/-- `Decoder::add_custom_type` (decoder.cpp lines 133-154): the boolean result paired
with the registry after the call. -/
def addCustomType (reg : Registry) (id : Nat) (name : String) (size : Nat)
    (f : Option (List Nat → JVal)) : Bool × Registry :=
  if hasType reg id then (false, reg)
  else if f.isNone then (false, reg)
  else if size = 0 then (false, reg)
  else (true, reg ++ [⟨name, size, id, false, f⟩])

/-- `Decoder::remove_custom_type` (decoder.cpp lines 161-177): the boolean result
paired with the registry after the call (`erase` removes the entry found). -/
def removeCustomType (reg : Registry) (id : Nat) : Bool × Registry :=
  match lookup reg id with
  | Option.none => (false, reg)
  | Option.some dt =>
    if dt.standard then (false, reg)
    else (true, reg.eraseP (fun d => d.type_id == id))

/-- `Decoder::bytes_to_uint16`: big-endian read of two bytes. -/
def bytes_to_uint16 (l : List Nat) : Nat :=
  (l.getD 0 0 % 256) * 256 + l.getD 1 0 % 256

/-- `Decoder::bytes_to_int16`: two's-complement interpretation of the big-endian
16-bit read. -/
def bytes_to_int16 (l : List Nat) : Int :=
  if 0x7FFF < bytes_to_uint16 l then (bytes_to_uint16 l : Int) - 0x10000
  else (bytes_to_uint16 l : Int)

/-- `Decoder::bytes_to_uint24`: big-endian read of three bytes (the source masks
with `0x00FFFFFF`, i.e. reduces modulo 2^24). -/
def bytes_to_uint24 (l : List Nat) : Nat :=
  ((l.getD 0 0 % 256) * 65536 + (l.getD 1 0 % 256) * 256 + l.getD 2 0 % 256) % 0x1000000

/-- `Decoder::bytes_to_int24`: two's-complement interpretation of the big-endian
24-bit read. -/
def bytes_to_int24 (l : List Nat) : Int :=
  if 0x7FFFFF < bytes_to_uint24 l then (bytes_to_uint24 l : Int) - 0x1000000
  else (bytes_to_uint24 l : Int)

/-- `Decoder::decode_digital_input`. -/
def decode_digital_input (l : List Nat) : JVal := .int (l.getD 0 0 % 256)

/-- `Decoder::decode_digital_output`. -/
def decode_digital_output (l : List Nat) : JVal := .int (l.getD 0 0 % 256)

/-- `Decoder::decode_analog_input`: signed 16-bit divided by `100.0`. -/
def decode_analog_input (l : List Nat) : JVal := .num ((bytes_to_int16 l : ℚ) / 100)

/-- `Decoder::decode_analog_output`: signed 16-bit divided by `100.0`. -/
def decode_analog_output (l : List Nat) : JVal := .num ((bytes_to_int16 l : ℚ) / 100)

/-- `Decoder::decode_luminosity`: unsigned 16-bit integer. -/
def decode_luminosity (l : List Nat) : JVal := .int (bytes_to_uint16 l)

/-- `Decoder::decode_presence`. -/
def decode_presence (l : List Nat) : JVal := .int (l.getD 0 0 % 256)

/-- `Decoder::decode_temperature`: signed 16-bit divided by `10.0`. -/
def decode_temperature (l : List Nat) : JVal := .num ((bytes_to_int16 l : ℚ) / 10)

/-- `Decoder::decode_humidity`: unsigned 16-bit divided by `10.0`. -/
def decode_humidity (l : List Nat) : JVal := .num ((bytes_to_uint16 l : ℚ) / 10)

/-- `Decoder::decode_barometer`: unsigned 16-bit divided by `10.0`. -/
def decode_barometer (l : List Nat) : JVal := .num ((bytes_to_uint16 l : ℚ) / 10)

/-- `Decoder::decode_accelerometer`: three signed 16-bit fields (subspans `(0,2)`,
`(2,2)`, `(4,2)`), each divided by `1000.0`, assigned to keys `x`, `y`, `z` of a
fresh object. -/
def decode_accelerometer (l : List Nat) : JVal :=
  .obj (mapInsert "z" (.num ((bytes_to_int16 ((l.drop 4).take 2) : ℚ) / 1000))
         (mapInsert "y" (.num ((bytes_to_int16 ((l.drop 2).take 2) : ℚ) / 1000))
           (mapInsert "x" (.num ((bytes_to_int16 (l.take 2) : ℚ) / 1000)) [])))

/-- `Decoder::decode_gyrometer`: like the accelerometer but divided by `100.0`. -/
def decode_gyrometer (l : List Nat) : JVal :=
  .obj (mapInsert "z" (.num ((bytes_to_int16 ((l.drop 4).take 2) : ℚ) / 100))
         (mapInsert "y" (.num ((bytes_to_int16 ((l.drop 2).take 2) : ℚ) / 100))
           (mapInsert "x" (.num ((bytes_to_int16 (l.take 2) : ℚ) / 100)) [])))

/-- `Decoder::decode_gps`: three signed 24-bit fields (subspans `(0,3)`, `(3,3)`,
`(6,3)`): latitude and longitude divided by `10000.0`, altitude by `100.0`. -/
def decode_gps (l : List Nat) : JVal :=
  .obj (mapInsert "altitude" (.num ((bytes_to_int24 ((l.drop 6).take 3) : ℚ) / 100))
         (mapInsert "longitude" (.num ((bytes_to_int24 ((l.drop 3).take 3) : ℚ) / 10000))
           (mapInsert "latitude" (.num ((bytes_to_int24 (l.take 3) : ℚ) / 10000)) [])))

/-- The `switch (type_id)` statement of `Decoder::decode` (lines 79-119): the fixed
dispatch for standard types; `Option.none` models the `default` branch (which fails
with `UnknownDataType`). -/
def stdSwitch (ty : Nat) (data : List Nat) : Option JVal :=
  match ty with
  | 0x00 => Option.some (decode_digital_input data)
  | 0x01 => Option.some (decode_digital_output data)
  | 0x02 => Option.some (decode_analog_input data)
  | 0x03 => Option.some (decode_analog_output data)
  | 0x65 => Option.some (decode_luminosity data)
  | 0x66 => Option.some (decode_presence data)
  | 0x67 => Option.some (decode_temperature data)
  | 0x68 => Option.some (decode_humidity data)
  | 0x71 => Option.some (decode_accelerometer data)
  | 0x73 => Option.some (decode_barometer data)
  | 0x86 => Option.some (decode_gyrometer data)
  | 0x88 => Option.some (decode_gps data)
  | _ => Option.none

/-- The frame-parsing loop of `Decoder::decode` (lines 43-128), structurally
recursive on a fuel argument.  A buffer of 0 or 1 remaining bytes corresponds to the
loop guard `current_index + 2 <= size` failing, followed by the residual-byte check;
the fuel-zero branch is unreachable whenever the fuel is at least half the buffer
length, which every caller in this file guarantees. -/
def decodeAux (reg : Registry) : Nat → List Nat → JsonObj → Except Error JsonObj
  | _, [], acc => .ok acc
  | _, [_], _ => .error .badPayloadFormat
  | 0, _ :: _ :: _, _ => .error .unexpected
  | fuel + 1, ch :: ty :: rest, acc =>
    match lookup reg (ty % 256) with
    | Option.none => .error .unknownDataType
    | Option.some dt =>
      if rest.length < dt.size then .error .badPayloadFormat
      else if dt.standard then
        match stdSwitch (ty % 256) (rest.take dt.size) with
        | Option.some v =>
          decodeAux reg fuel (rest.drop dt.size)
            (mapInsert (dt.name ++ "_" ++ toString (ch % 256)) v acc)
        | Option.none => .error .unknownDataType
      else
        match dt.decoder_function with
        | Option.some g =>
          decodeAux reg fuel (rest.drop dt.size)
            (mapInsert (dt.name ++ "_" ++ toString (ch % 256)) (g (rest.take dt.size)) acc)
        | Option.none => .error .unexpected

/-- `Decoder::decode` (decoder.cpp lines 33-131). -/
def decode (reg : Registry) (bytes : List Nat) : Except Error JsonObj :=
  if bytes.isEmpty then .error .payloadEmpty
  else decodeAux reg bytes.length bytes []

/-- The same frame-parsing loop, instrumented: the result is paired with the number
of loop iterations entered and with the registry state as threaded through the walk
(the source reads `data_types_` but never writes it). -/
def decodeInstrAux (reg : Registry) :
    Nat → List Nat → JsonObj → Except Error JsonObj × Nat × Registry
  | _, [], acc => (.ok acc, 0, reg)
  | _, [_], _ => (.error .badPayloadFormat, 0, reg)
  | 0, _ :: _ :: _, _ => (.error .unexpected, 0, reg)
  | fuel + 1, ch :: ty :: rest, acc =>
    match lookup reg (ty % 256) with
    | Option.none => (.error .unknownDataType, 1, reg)
    | Option.some dt =>
      if rest.length < dt.size then (.error .badPayloadFormat, 1, reg)
      else if dt.standard then
        match stdSwitch (ty % 256) (rest.take dt.size) with
        | Option.some v =>
          ((decodeInstrAux reg fuel (rest.drop dt.size)
              (mapInsert (dt.name ++ "_" ++ toString (ch % 256)) v acc)).1,
            (decodeInstrAux reg fuel (rest.drop dt.size)
              (mapInsert (dt.name ++ "_" ++ toString (ch % 256)) v acc)).2.1 + 1,
            (decodeInstrAux reg fuel (rest.drop dt.size)
              (mapInsert (dt.name ++ "_" ++ toString (ch % 256)) v acc)).2.2)
        | Option.none => (.error .unknownDataType, 1, reg)
      else
        match dt.decoder_function with
        | Option.some g =>
          ((decodeInstrAux reg fuel (rest.drop dt.size)
              (mapInsert (dt.name ++ "_" ++ toString (ch % 256)) (g (rest.take dt.size)) acc)).1,
            (decodeInstrAux reg fuel (rest.drop dt.size)
              (mapInsert (dt.name ++ "_" ++ toString (ch % 256)) (g (rest.take dt.size)) acc)).2.1 + 1,
            (decodeInstrAux reg fuel (rest.drop dt.size)
              (mapInsert (dt.name ++ "_" ++ toString (ch % 256)) (g (rest.take dt.size)) acc)).2.2)
        | Option.none => (.error .unexpected, 1, reg)

/-- `Decoder::decode`, instrumented with the loop-iteration count and the final
registry state. -/
def decodeInstr (reg : Registry) (bytes : List Nat) : Except Error JsonObj × Nat × Registry :=
  if bytes.isEmpty then (.error .payloadEmpty, 0, reg)
  else decodeInstrAux reg bytes.length bytes []

/-- One wire frame: channel byte, type byte, payload bytes. -/
structure Frame where
  ch : Nat
  ty : Nat
  data : List Nat
deriving DecidableEq

/-- Concatenation of frames into a wire buffer. -/
def encodeFrames : List Frame → List Nat
  | [] => []
  | f :: fs => f.ch :: f.ty :: (f.data ++ encodeFrames fs)

/-- A frame is valid for a registry when its type byte is registered and its payload
length equals the registered byte width. -/
def frameOK (reg : Registry) (f : Frame) : Bool :=
  match lookup reg (f.ty % 256) with
  | Option.some dt => f.data.length == dt.size
  | Option.none => false

/-- The output key `"<Name>_<channel>"` a frame produces. -/
def keyOf (reg : Registry) (f : Frame) : String :=
  match lookup reg (f.ty % 256) with
  | Option.some dt => dt.name ++ "_" ++ toString (f.ch % 256)
  | Option.none => ""

/-- The decoded value a valid frame produces (mirrors the dispatch in the loop). -/
def valueOf (reg : Registry) (f : Frame) : JVal :=
  match lookup reg (f.ty % 256) with
  | Option.some dt =>
    if dt.standard then (stdSwitch (f.ty % 256) (f.data.take dt.size)).getD (.int 0)
    else
      match dt.decoder_function with
      | Option.some g => g (f.data.take dt.size)
      | Option.none => .int 0
  | Option.none => .int 0

/-- Folding a list of frames into the result object, later frames overwriting
earlier ones with the same key. -/
def insertFrames (reg : Registry) (fs : List Frame) (acc : JsonObj) : JsonObj :=
  fs.foldl (fun m f => mapInsert (keyOf reg f) (valueOf reg f) m) acc

/-- Lookup of a key in a decoded object. -/
def lookupKey (m : JsonObj) (k : String) : Option JVal :=
  (m.find? (fun p => p.1 == k)).map (fun p => p.2)

/-- The keys of a decoded payload, in the order the object stores them
(`.error` contributes no keys). -/
def jsonKeys : Except Error JsonObj → List String
  | .ok m => m.map Prod.fst
  | .error _ => []

/-- The twelve type identifiers handled by the standard `switch`. -/
def stdSwitchIds : List Nat :=
  [0x00, 0x01, 0x02, 0x03, 0x65, 0x66, 0x67, 0x68, 0x71, 0x73, 0x86, 0x88]

/-- Uniqueness of a list of registry keys. -/
def nodupKeys : List Nat → Bool
  | [] => true
  | x :: xs => !(xs.contains x) && nodupKeys xs

/-- Registry sanity, maintained by the `Decoder` API: standard entries are among the
twelve switch cases, custom entries hold a callable decode rule, and type ids are
unique (an `std::unordered_map` cannot hold duplicate keys). -/
def validRegistry (reg : Registry) : Bool :=
  reg.all (fun dt =>
      if dt.standard then stdSwitchIds.contains dt.type_id
      else dt.decoder_function.isSome)
    && nodupKeys (reg.map (fun dt => dt.type_id))

/-- Modelled from the spec: the `BadPayloadFormat` failure condition of claim C3 —
walking the frames sequentially, either a frame's declared byte width would overrun
the end of the buffer, or residual bytes (a partial 0- or 1-byte header) remain past
the last complete frame.  An unregistered type byte stops the walk without a
bad-format verdict (decode reports `UnknownDataType` there instead).  The fuel
discipline matches `decodeAux`; the top-level `specBadFormat` supplies ample fuel. -/
def specBadFormatAux (reg : Registry) : Nat → List Nat → Bool
  | _, [] => false
  | _, [_] => true
  | 0, _ :: _ :: _ => false
  | fuel + 1, _ :: ty :: rest =>
    match lookup reg (ty % 256) with
    | Option.none => false
    | Option.some dt =>
      if rest.length < dt.size then true
      else specBadFormatAux reg fuel (rest.drop dt.size)

/-- Modelled from the spec: top level of the claim-C3 failure condition. -/
def specBadFormat (reg : Registry) (bytes : List Nat) : Bool :=
  specBadFormatAux reg bytes.length bytes

/-- A concrete custom decode rule used by witnesses: big-endian 16-bit counter. -/
def counterRule (l : List Nat) : JVal := .int ((l.getD 0 0 % 256) * 256 + l.getD 1 0 % 256)

lemma charListLt_irrefl (l : List Char) : charListLt l l = false := by
  induction l with
  | nil => rfl
  | cons a as ih => simp [charListLt, ih]

lemma charListLt_antisymm_eq :
    ∀ l₁ l₂ : List Char, charListLt l₁ l₂ = false → charListLt l₂ l₁ = false → l₁ = l₂ := by
  intro l₁
  induction l₁ with
  | nil =>
    intro l₂ h₁ _
    cases l₂ with
    | nil => rfl
    | cons b bs => simp [charListLt] at h₁
  | cons a as ih =>
    intro l₂ h₁ h₂
    cases l₂ with
    | nil => simp [charListLt] at h₂
    | cons b bs =>
      simp only [charListLt] at h₁ h₂
      by_cases hab : a < b
      · simp [hab] at h₁
      · by_cases hba : b < a
        · simp [hab, hba] at h₂
        · have hEq : a = b := le_antisymm (not_lt.mp hba) (not_lt.mp hab)
          subst hEq
          simp [lt_irrefl] at h₁ h₂
          exact congrArg (a :: ·) (ih bs h₁ h₂)

lemma charListLt_trans :
    ∀ l₁ l₂ l₃ : List Char, charListLt l₁ l₂ = true → charListLt l₂ l₃ = true →
      charListLt l₁ l₃ = true := by
  intro l₁
  induction l₁ with
  | nil =>
    intro l₂ l₃ h₁ h₂
    cases l₂ with
    | nil => simp [charListLt] at h₁
    | cons b bs =>
      cases l₃ with
      | nil => simp [charListLt] at h₂
      | cons c cs => simp [charListLt]
  | cons a as ih =>
    intro l₂ l₃ h₁ h₂
    cases l₂ with
    | nil => simp [charListLt] at h₁
    | cons b bs =>
      cases l₃ with
      | nil => simp [charListLt] at h₂
      | cons c cs =>
        simp only [charListLt] at h₁ h₂ ⊢
        by_cases hab : a < b
        · by_cases hbc : b < c
          · simp [lt_trans hab hbc]
          · by_cases hcb : c < b
            · simp [hbc, hcb] at h₂
            · have : b = c := le_antisymm (not_lt.mp hcb) (not_lt.mp hbc)
              subst this
              simp [hab]
        · by_cases hba : b < a
          · simp [hab, hba] at h₁
          · have : a = b := le_antisymm (not_lt.mp hba) (not_lt.mp hab)
            subst this
            simp [hab, lt_irrefl] at h₁
            by_cases hbc : a < c
            · simp [hbc]
            · by_cases hcb : c < a
              · simp [hbc, hcb] at h₂
              · simp [hbc, hcb] at h₂ ⊢
                exact ih bs cs h₁ h₂

lemma strLtB_irrefl (s : String) : strLtB s s = false := charListLt_irrefl s.data

lemma strLtB_antisymm_eq {s t : String} (h₁ : strLtB s t = false) (h₂ : strLtB t s = false) :
    s = t := by
  cases s with
  | mk ds =>
    cases t with
    | mk dt => exact congrArg String.mk (charListLt_antisymm_eq ds dt h₁ h₂)

lemma strLtB_trans {a b c : String} (h₁ : strLtB a b = true) (h₂ : strLtB b c = true) :
    strLtB a c = true := charListLt_trans a.data b.data c.data h₁ h₂

lemma strLtB_ne {a b : String} (h : strLtB a b = true) : a ≠ b := by
  intro hEq
  subst hEq
  rw [strLtB_irrefl] at h
  cases h

lemma lookupKey_mapInsert (k : String) (v : JVal) (m : JsonObj) (k' : String) :
    lookupKey (mapInsert k v m) k' = if k' = k then Option.some v else lookupKey m k' := by
  induction m with
  | nil =>
    by_cases h : k' = k
    · subst h
      simp [lookupKey, mapInsert, List.find?]
    · have hb : (k == k') = false := beq_eq_false_iff_ne.mpr (fun e => h e.symm)
      simp [lookupKey, mapInsert, List.find?, hb, h]
  | cons p m ih =>
    obtain ⟨k₀, v₀⟩ := p
    simp only [mapInsert]
    by_cases h₁ : strLtB k k₀ = true
    · rw [if_pos h₁]
      by_cases h : k' = k
      · subst h
        simp [lookupKey, List.find?]
      · have hb : (k == k') = false := beq_eq_false_iff_ne.mpr (fun e => h e.symm)
        simp [lookupKey, List.find?, hb, h]
    · rw [if_neg h₁]
      by_cases h₂ : strLtB k₀ k = true
      · rw [if_pos h₂]
        by_cases h₀ : k' = k₀
        · subst h₀
          have hkk : k' ≠ k := strLtB_ne h₂
          simp [lookupKey, List.find?, hkk]
        · have hb : (k₀ == k') = false := beq_eq_false_iff_ne.mpr (fun e => h₀ e.symm)
          simp only [lookupKey, List.find?, hb] at ih ⊢
          exact ih
      · rw [if_neg h₂]
        have hk : k = k₀ :=
          strLtB_antisymm_eq (Bool.eq_false_iff.mpr h₁) (Bool.eq_false_iff.mpr h₂)
        subst hk
        by_cases h : k' = k
        · subst h
          simp [lookupKey, List.find?]
        · have hb : (k == k') = false := beq_eq_false_iff_ne.mpr (fun e => h e.symm)
          simp [lookupKey, List.find?, hb, h]

/-- The strict key ordering relation of the `std::map` backing a decoded object. -/
def keyLt (a b : String × JVal) : Prop := strLtB a.1 b.1 = true

lemma keyLt_trans {a b c : String × JVal} (h₁ : keyLt a b) (h₂ : keyLt b c) : keyLt a c :=
  strLtB_trans h₁ h₂

lemma mapInsert_head_rel {k₀ : String} {v₀ : JVal} (k : String) (v : JVal) (m : JsonObj)
    (hlt : strLtB k₀ k = true)
    (hhead : ∀ h ∈ m.head?, keyLt (k₀, v₀) h) :
    ∀ h ∈ (mapInsert k v m).head?, keyLt (k₀, v₀) h := by
  cases m with
  | nil =>
    intro h hh
    simp [mapInsert] at hh
    subst hh
    exact hlt
  | cons p m =>
    obtain ⟨k₁, v₁⟩ := p
    intro h hh
    simp only [mapInsert] at hh
    by_cases h₁ : strLtB k k₁ = true
    · rw [if_pos h₁] at hh
      simp at hh
      subst hh
      exact hlt
    · rw [if_neg h₁] at hh
      by_cases h₂ : strLtB k₁ k = true
      · rw [if_pos h₂] at hh
        simp at hh
        subst hh
        exact hhead ⟨k₁, v₁⟩ (by simp)
      · rw [if_neg h₂] at hh
        simp at hh
        subst hh
        exact hlt

lemma mapInsert_sorted (k : String) (v : JVal) (m : JsonObj)
    (hm : List.Chain' keyLt m) : List.Chain' keyLt (mapInsert k v m) := by
  induction m with
  | nil => simp [mapInsert]
  | cons p m ih =>
    obtain ⟨k₀, v₀⟩ := p
    rw [List.chain'_cons'] at hm
    simp only [mapInsert]
    by_cases h₁ : strLtB k k₀ = true
    · rw [if_pos h₁]
      rw [List.chain'_cons']
      refine ⟨fun h hh => ?_, List.chain'_cons'.mpr hm⟩
      simp at hh
      subst hh
      exact h₁
    · rw [if_neg h₁]
      by_cases h₂ : strLtB k₀ k = true
      · rw [if_pos h₂]
        rw [List.chain'_cons']
        exact ⟨mapInsert_head_rel k v m h₂ hm.1, ih hm.2⟩
      · rw [if_neg h₂]
        have hk : k = k₀ :=
          strLtB_antisymm_eq (Bool.eq_false_iff.mpr h₁) (Bool.eq_false_iff.mpr h₂)
        subst hk
        rw [List.chain'_cons']
        exact ⟨hm.1, hm.2⟩

lemma chain'_keyLt_nodup {m : JsonObj} (hm : List.Chain' keyLt m) :
    (m.map Prod.fst).Nodup := by
  have htrans : IsTrans (String × JVal) keyLt := ⟨fun _ _ _ h₁ h₂ => keyLt_trans h₁ h₂⟩
  have hp : m.Pairwise keyLt := (@List.chain'_iff_pairwise _ _ htrans m).mp hm
  exact (List.pairwise_map).mpr (hp.imp fun h => strLtB_ne h)

lemma nodupKeys_iff (l : List Nat) : nodupKeys l = true ↔ l.Nodup := by
  induction l with
  | nil => simp [nodupKeys]
  | cons x xs ih =>
    simp only [nodupKeys, Bool.and_eq_true, Bool.not_eq_true', List.nodup_cons, ih]
    constructor
    · rintro ⟨h₁, h₂⟩
      refine ⟨fun hm => ?_, h₂⟩
      have h₁' : xs.elem x = false := h₁
      rw [List.elem_iff.mpr hm] at h₁'
      cases h₁'
    · rintro ⟨h₁, h₂⟩
      refine ⟨?_, h₂⟩
      cases hc : xs.contains x with
      | false => rfl
      | true => exact absurd (List.elem_iff.mp hc) h₁

lemma validRegistry_nodup {reg : Registry} (h : validRegistry reg = true) :
    (reg.map (fun dt => dt.type_id)).Nodup := by
  rw [validRegistry, Bool.and_eq_true] at h
  exact (nodupKeys_iff _).mp h.2

lemma validRegistry_mem {reg : Registry} (h : validRegistry reg = true) {dt : DataType}
    (hdt : dt ∈ reg) :
    (dt.standard = true → dt.type_id ∈ stdSwitchIds) ∧
    (dt.standard = false → dt.decoder_function.isSome = true) := by
  rw [validRegistry, Bool.and_eq_true] at h
  have hall := (List.all_eq_true.mp h.1) dt hdt
  constructor
  · intro hs
    rw [hs] at hall
    simpa [List.elem_iff] using hall
  · intro hs
    rw [hs] at hall
    simpa using hall

lemma lookup_mem {reg : Registry} {id : Nat} {dt : DataType}
    (h : lookup reg id = Option.some dt) : dt ∈ reg :=
  List.mem_of_find?_eq_some h

lemma lookup_type_id {reg : Registry} {id : Nat} {dt : DataType}
    (h : lookup reg id = Option.some dt) : dt.type_id = id := by
  have := List.find?_some h
  simpa using this

lemma stdSwitch_isSome_of_mem {ty : Nat} (h : ty ∈ stdSwitchIds) (data : List Nat) :
    (stdSwitch ty data).isSome = true := by
  simp only [stdSwitchIds, List.mem_cons, List.not_mem_nil, or_false] at h
  rcases h with h | h | h | h | h | h | h | h | h | h | h | h <;> subst h <;> rfl

lemma decodeAux_cons_frame {reg : Registry} (hreg : validRegistry reg = true)
    {f : Frame} (hf : frameOK reg f = true) (fuel : Nat) (rest : List Nat) (acc : JsonObj) :
    decodeAux reg (fuel + 1) (f.ch :: f.ty :: (f.data ++ rest)) acc
      = decodeAux reg fuel rest (mapInsert (keyOf reg f) (valueOf reg f) acc) := by
  rw [frameOK] at hf
  cases hdt : lookup reg (f.ty % 256) with
  | none => rw [hdt] at hf; cases hf
  | some dt =>
    rw [hdt] at hf
    have hlen : f.data.length = dt.size := by simpa using hf
    have hnotlt : ¬ ((f.data ++ rest).length < dt.size) := by
      rw [List.length_append, hlen]; omega
    have htake : (f.data ++ rest).take dt.size = f.data := by
      rw [← hlen]; exact List.take_left f.data rest
    have hdrop : (f.data ++ rest).drop dt.size = rest := by
      rw [← hlen]; exact List.drop_left f.data rest
    have hkey : keyOf reg f = dt.name ++ "_" ++ toString (f.ch % 256) := by
      rw [keyOf, hdt]
    have htake2 : f.data.take dt.size = f.data := by
      rw [← hlen]; exact List.take_length f.data
    simp only [decodeAux, hdt, hnotlt, if_false, htake, hdrop]
    cases hstd : dt.standard with
    | true =>
      have hmem : dt.type_id ∈ stdSwitchIds := (validRegistry_mem hreg (lookup_mem hdt)).1 hstd
      rw [lookup_type_id hdt] at hmem
      obtain ⟨v, hv⟩ := Option.isSome_iff_exists.mp (stdSwitch_isSome_of_mem hmem f.data)
      have hval : valueOf reg f = v := by
        simp only [valueOf, hdt, htake2]
        rw [if_pos hstd, hv]
        rfl
      simp only [eq_self_iff_true, if_true, hv, hkey, hval]
    | false =>
      have hsome : dt.decoder_function.isSome = true :=
        (validRegistry_mem hreg (lookup_mem hdt)).2 hstd
      obtain ⟨g, hg⟩ := Option.isSome_iff_exists.mp hsome
      have hval : valueOf reg f = g f.data := by
        simp only [valueOf, hdt, htake2]
        rw [if_neg (by rw [hstd]; exact Bool.false_ne_true), hg]
      simp only [Bool.false_eq_true, if_false, hg, hkey, hval]

lemma encodeFrames_length_ge (fs : List Frame) :
    2 * fs.length ≤ (encodeFrames fs).length := by
  induction fs with
  | nil => simp [encodeFrames]
  | cons f fs ih => simp [encodeFrames, List.length_append] at ih ⊢; omega

lemma decodeAux_encodeFrames {reg : Registry} (hreg : validRegistry reg = true) :
    ∀ (fs : List Frame) (fuel : Nat) (rest : List Nat) (acc : JsonObj),
      (∀ f ∈ fs, frameOK reg f = true) →
      (encodeFrames fs ++ rest).length ≤ 2 * fuel + 1 →
      decodeAux reg fuel (encodeFrames fs ++ rest) acc
        = decodeAux reg (fuel - fs.length) rest (insertFrames reg fs acc) := by
  intro fs
  induction fs with
  | nil =>
    intro fuel rest acc _ _
    simp [encodeFrames, insertFrames]
  | cons f fs ih =>
    intro fuel rest acc hok hfuel
    have hshape : encodeFrames (f :: fs) ++ rest
        = f.ch :: f.ty :: (f.data ++ (encodeFrames fs ++ rest)) := by
      simp [encodeFrames, List.append_assoc]
    cases fuel with
    | zero =>
      exfalso
      rw [hshape] at hfuel
      simp [List.length_append] at hfuel
    | succ fu =>
      rw [hshape, decodeAux_cons_frame hreg (hok f (by simp)) fu _ acc]
      have hfuel' : (encodeFrames fs ++ rest).length ≤ 2 * fu + 1 := by
        rw [hshape] at hfuel
        simp only [List.length_cons, List.length_append] at hfuel ⊢
        omega
      rw [ih fu rest _ (fun g hg => hok g (by simp [hg])) hfuel']
      simp only [insertFrames, List.foldl_cons, List.length_cons, Nat.succ_sub_succ]

lemma lookupKey_insertFrames (reg : Registry) :
    ∀ (fs : List Frame) (acc : JsonObj) (k : String),
      lookupKey (insertFrames reg fs acc) k
        = match fs.reverse.find? (fun f => keyOf reg f == k) with
          | Option.some f => Option.some (valueOf reg f)
          | Option.none => lookupKey acc k := by
  intro fs
  induction fs with
  | nil => intro acc k; simp [insertFrames]
  | cons f fs ih =>
    intro acc k
    have h1 : insertFrames reg (f :: fs) acc
        = insertFrames reg fs (mapInsert (keyOf reg f) (valueOf reg f) acc) := rfl
    rw [h1, ih, List.reverse_cons, List.find?_append]
    cases hfind : fs.reverse.find? (fun g => keyOf reg g == k) with
    | some g => simp [Option.or]
    | none =>
      simp only [Option.or]
      rw [lookupKey_mapInsert]
      by_cases hk : k = keyOf reg f
      · subst hk
        simp [List.find?]
      · have hb : (keyOf reg f == k) = false := beq_eq_false_iff_ne.mpr (fun e => hk e.symm)
        simp [List.find?, hb, hk]

lemma insertFrames_sorted (reg : Registry) :
    ∀ (fs : List Frame) (acc : JsonObj), List.Chain' keyLt acc →
      List.Chain' keyLt (insertFrames reg fs acc) := by
  intro fs
  induction fs with
  | nil => intro acc h; exact h
  | cons f fs ih =>
    intro acc h
    exact ih _ (mapInsert_sorted _ _ _ h)

lemma decodeAux_sorted (reg : Registry) :
    ∀ (fuel : Nat) (bytes : List Nat) (acc m : JsonObj),
      List.Chain' keyLt acc → decodeAux reg fuel bytes acc = .ok m →
      List.Chain' keyLt m := by
  intro fuel
  induction fuel with
  | zero =>
    intro bytes acc m hacc h
    cases bytes with
    | nil =>
      simp only [decodeAux, Except.ok.injEq] at h
      subst h
      exact hacc
    | cons b bs =>
      cases bs with
      | nil => exact Except.noConfusion h
      | cons ty rest => exact Except.noConfusion h
  | succ fu ih =>
    intro bytes acc m hacc h
    cases bytes with
    | nil =>
      simp only [decodeAux, Except.ok.injEq] at h
      subst h
      exact hacc
    | cons b bs =>
      cases bs with
      | nil => exact Except.noConfusion h
      | cons ty rest =>
        cases hdt : lookup reg (ty % 256) with
        | none =>
          simp only [decodeAux, hdt] at h
          exact Except.noConfusion h
        | some dt =>
          simp only [decodeAux, hdt] at h
          by_cases hlt : rest.length < dt.size
          · rw [if_pos hlt] at h
            exact Except.noConfusion h
          · rw [if_neg hlt] at h
            by_cases hstd : dt.standard = true
            · rw [if_pos hstd] at h
              cases hv : stdSwitch (ty % 256) (rest.take dt.size) with
              | none =>
                rw [hv] at h
                exact Except.noConfusion h
              | some v =>
                rw [hv] at h
                exact ih _ _ _ (mapInsert_sorted _ _ _ hacc) h
            · rw [if_neg hstd] at h
              cases hg : dt.decoder_function with
              | none =>
                rw [hg] at h
                exact Except.noConfusion h
              | some g =>
                rw [hg] at h
                exact ih _ _ _ (mapInsert_sorted _ _ _ hacc) h

lemma decodeInstrAux_spec (reg : Registry) :
    ∀ (fuel : Nat) (bytes : List Nat) (acc : JsonObj),
      (decodeInstrAux reg fuel bytes acc).1 = decodeAux reg fuel bytes acc ∧
      (decodeInstrAux reg fuel bytes acc).2.2 = reg ∧
      (decodeInstrAux reg fuel bytes acc).2.1 ≤ bytes.length / 2 := by
  intro fuel
  induction fuel with
  | zero =>
    intro bytes acc
    cases bytes with
    | nil => exact ⟨rfl, rfl, by simp [decodeInstrAux]⟩
    | cons b bs =>
      cases bs with
      | nil => exact ⟨rfl, rfl, by simp [decodeInstrAux]⟩
      | cons ty rest => exact ⟨rfl, rfl, by simp [decodeInstrAux]⟩
  | succ fu ih =>
    intro bytes acc
    cases bytes with
    | nil => exact ⟨rfl, rfl, by simp [decodeInstrAux]⟩
    | cons b bs =>
      cases bs with
      | nil => exact ⟨rfl, rfl, by simp [decodeInstrAux]⟩
      | cons ty rest =>
        have hdiv : 1 ≤ (b :: ty :: rest).length / 2 := by
          simp only [List.length_cons]
          omega
        cases hdt : lookup reg (ty % 256) with
        | none =>
          refine ⟨?_, ?_, ?_⟩
          · simp only [decodeInstrAux, decodeAux, hdt]
          · simp only [decodeInstrAux, hdt]
          · simp only [decodeInstrAux, hdt]
            exact hdiv
        | some dt =>
          by_cases hlt : rest.length < dt.size
          · refine ⟨?_, ?_, ?_⟩
            · simp only [decodeInstrAux, decodeAux, hdt, if_pos hlt]
            · simp only [decodeInstrAux, hdt, if_pos hlt]
            · simp only [decodeInstrAux, hdt, if_pos hlt]
              exact hdiv
          · have hdivle : (rest.drop dt.size).length / 2 + 1 ≤ (b :: ty :: rest).length / 2 := by
              simp only [List.length_drop, List.length_cons]
              omega
            by_cases hstd : dt.standard = true
            · cases hv : stdSwitch (ty % 256) (rest.take dt.size) with
              | none =>
                refine ⟨?_, ?_, ?_⟩
                · simp only [decodeInstrAux, decodeAux, hdt, if_neg hlt, if_pos hstd, hv]
                · simp only [decodeInstrAux, hdt, if_neg hlt, if_pos hstd, hv]
                · simp only [decodeInstrAux, hdt, if_neg hlt, if_pos hstd, hv]
                  exact hdiv
              | some v =>
                obtain ⟨ih1, ih2, ih3⟩ :=
                  ih (rest.drop dt.size) (mapInsert (dt.name ++ "_" ++ toString (b % 256)) v acc)
                refine ⟨?_, ?_, ?_⟩
                · simp only [decodeInstrAux, decodeAux, hdt, if_neg hlt, if_pos hstd, hv]
                  exact ih1
                · simp only [decodeInstrAux, hdt, if_neg hlt, if_pos hstd, hv]
                  exact ih2
                · simp only [decodeInstrAux, hdt, if_neg hlt, if_pos hstd, hv]
                  exact le_trans (Nat.add_le_add_right ih3 1) hdivle
            · cases hg : dt.decoder_function with
              | none =>
                refine ⟨?_, ?_, ?_⟩
                · simp only [decodeInstrAux, decodeAux, hdt, if_neg hlt, if_neg hstd, hg]
                · simp only [decodeInstrAux, hdt, if_neg hlt, if_neg hstd, hg]
                · simp only [decodeInstrAux, hdt, if_neg hlt, if_neg hstd, hg]
                  exact hdiv
              | some g =>
                obtain ⟨ih1, ih2, ih3⟩ :=
                  ih (rest.drop dt.size)
                    (mapInsert (dt.name ++ "_" ++ toString (b % 256)) (g (rest.take dt.size)) acc)
                refine ⟨?_, ?_, ?_⟩
                · simp only [decodeInstrAux, decodeAux, hdt, if_neg hlt, if_neg hstd, hg]
                  exact ih1
                · simp only [decodeInstrAux, hdt, if_neg hlt, if_neg hstd, hg]
                  exact ih2
                · simp only [decodeInstrAux, hdt, if_neg hlt, if_neg hstd, hg]
                  exact le_trans (Nat.add_le_add_right ih3 1) hdivle

lemma decodeAux_badFormat_iff {reg : Registry} (hreg : validRegistry reg = true) :
    ∀ (fuel : Nat) (bytes : List Nat) (acc : JsonObj),
      (decodeAux reg fuel bytes acc = .error .badPayloadFormat ↔
        specBadFormatAux reg fuel bytes = true) := by
  intro fuel
  induction fuel with
  | zero =>
    intro bytes acc
    cases bytes with
    | nil => simp [decodeAux, specBadFormatAux]
    | cons b bs =>
      cases bs with
      | nil => simp [decodeAux, specBadFormatAux]
      | cons ty rest => simp [decodeAux, specBadFormatAux]
  | succ fu ih =>
    intro bytes acc
    cases bytes with
    | nil => simp [decodeAux, specBadFormatAux]
    | cons b bs =>
      cases bs with
      | nil => simp [decodeAux, specBadFormatAux]
      | cons ty rest =>
        cases hdt : lookup reg (ty % 256) with
        | none => simp [decodeAux, specBadFormatAux, hdt]
        | some dt =>
          simp only [decodeAux, specBadFormatAux, hdt]
          by_cases hlt : rest.length < dt.size
          · simp [if_pos hlt]
          · rw [if_neg hlt, if_neg hlt]
            by_cases hstd : dt.standard = true
            · rw [if_pos hstd]
              cases hv : stdSwitch (ty % 256) (rest.take dt.size) with
              | none =>
                exfalso
                have hmem : dt.type_id ∈ stdSwitchIds :=
                  (validRegistry_mem hreg (lookup_mem hdt)).1 hstd
                rw [lookup_type_id hdt] at hmem
                have := stdSwitch_isSome_of_mem hmem (rest.take dt.size)
                rw [hv] at this
                cases this
              | some v => exact ih (rest.drop dt.size) _
            · rw [if_neg hstd]
              cases hg : dt.decoder_function with
              | none =>
                exfalso
                have := (validRegistry_mem hreg (lookup_mem hdt)).2
                  (Bool.not_eq_true _ ▸ Bool.eq_false_iff.mpr hstd)
                rw [hg] at this
                cases this
              | some g => exact ih (rest.drop dt.size) _

lemma lookup_eraseP {reg : Registry} (id : Nat)
    (h : (reg.map (fun dt => dt.type_id)).Nodup) :
    lookup (reg.eraseP (fun d => d.type_id == id)) id = Option.none := by
  induction reg with
  | nil => rfl
  | cons dt rest ih =>
    simp only [List.map_cons, List.nodup_cons] at h
    by_cases hdt : dt.type_id = id
    · have hb : (dt.type_id == id) = true := beq_iff_eq.mpr hdt
      have he : List.eraseP (fun d => d.type_id == id) (dt :: rest) = rest := by
        simp [List.eraseP_cons, hb]
      rw [he, lookup, List.find?_eq_none]
      intro x hx hpx
      have hxid : x.type_id = id := by simpa using hpx
      exact h.1 (List.mem_map.mpr ⟨x, hx, by rw [hxid, hdt]⟩)
    · have hb : (dt.type_id == id) = false := beq_eq_false_iff_ne.mpr hdt
      have he : List.eraseP (fun d => d.type_id == id) (dt :: rest)
          = dt :: List.eraseP (fun d => d.type_id == id) rest := by
        simp [List.eraseP_cons, hb]
      rw [he, lookup, List.find?_cons, hb]
      exact ih h.2

lemma validRegistry_eraseP {reg : Registry} (h : validRegistry reg = true)
    (p : DataType → Bool) : validRegistry (reg.eraseP p) = true := by
  rw [validRegistry, Bool.and_eq_true] at h ⊢
  constructor
  · rw [List.all_eq_true] at h ⊢
    exact fun dt hdt => (h.1) dt ((List.eraseP_sublist reg).subset hdt)
  · rw [nodupKeys_iff] at h ⊢
    exact h.2.sublist ((List.eraseP_sublist reg).map _)

lemma decode_unknown_of_lookup_none {reg : Registry} (hreg : validRegistry reg = true)
    {fs : List Frame} (hfs : ∀ f ∈ fs, frameOK reg f = true)
    {ty : Nat} (hty : lookup reg (ty % 256) = Option.none) (ch : Nat) (rest : List Nat) :
    decode reg (encodeFrames fs ++ ch :: ty :: rest) = .error .unknownDataType := by
  have hne : (encodeFrames fs ++ ch :: ty :: rest).isEmpty = false := by
    cases fs <;> simp [encodeFrames]
  rw [decode, if_neg (by rw [hne]; exact Bool.false_ne_true)]
  have hlb : 2 * fs.length ≤ (encodeFrames fs).length := encodeFrames_length_ge fs
  have hlen : (encodeFrames fs ++ ch :: ty :: rest).length
      = (encodeFrames fs).length + (rest.length + 2) := by
    simp [List.length_append]
  rw [decodeAux_encodeFrames hreg fs _ (ch :: ty :: rest) [] hfs (by omega)]
  obtain ⟨k, hk⟩ : ∃ k, (encodeFrames fs ++ ch :: ty :: rest).length - fs.length = k + 1 :=
    ⟨(encodeFrames fs ++ ch :: ty :: rest).length - fs.length - 1, by omega⟩
  rw [hk]
  simp only [decodeAux, hty]

/-- The registry obtained by registering the custom 2-byte `Counter` type at id
`0xA0` on a fresh decoder (used by witnesses). -/
def regWithCounter : Registry :=
  stdRegistry ++ [⟨"Counter", 2, 0xA0, false, Option.some counterRule⟩]

/-- Claim C1: for every non-empty buffer fully composed of valid frames whose
registered widths exactly partition it, decode succeeds; every key in the result
maps to the value of the last frame producing it (last write wins), keys no frame
produces are absent (the reverse-find characterisation states both), and the result
holds exactly one entry per key. -/
theorem decode_frames_last_write_wins (reg : Registry) (fs : List Frame)
    (hreg : validRegistry reg = true) (hne : fs ≠ [])
    (hok : ∀ f ∈ fs, frameOK reg f = true) :
    ∃ m, decode reg (encodeFrames fs) = .ok m ∧
      (∀ k, lookupKey m k
          = (fs.reverse.find? (fun f => keyOf reg f == k)).map (valueOf reg)) ∧
      (m.map Prod.fst).Nodup := by
  refine ⟨insertFrames reg fs [], ?_, ?_, ?_⟩
  · have hneb : (encodeFrames fs).isEmpty = false := by
      cases fs with
      | nil => exact absurd rfl hne
      | cons f fs => simp [encodeFrames]
    rw [decode, if_neg (by rw [hneb]; exact Bool.false_ne_true)]
    have hmain := decodeAux_encodeFrames hreg fs (encodeFrames fs).length [] [] hok
      (by rw [List.append_nil]; omega)
    rw [List.append_nil] at hmain
    rw [hmain]
    simp [decodeAux]
  · intro k
    rw [lookupKey_insertFrames]
    cases hfind : fs.reverse.find? (fun f => keyOf reg f == k) with
    | some f => simp
    | none => simp [lookupKey, List.find?]
  · exact chain'_keyLt_nodup (insertFrames_sorted reg fs [] List.chain'_nil)

/-- Witness for C1: a concrete two-frame buffer whose frames share the key
`Temperature_1`, exercising the last-write-wins overwrite. -/
theorem decode_frames_last_write_wins_witness :
    ∃ m, decode stdRegistry
        (encodeFrames [⟨1, 0x67, [0x01, 0x10]⟩, ⟨1, 0x67, [0xFF, 0xF6]⟩]) = .ok m ∧
      (∀ k, lookupKey m k
          = (([⟨1, 0x67, [0x01, 0x10]⟩, ⟨1, 0x67, [0xFF, 0xF6]⟩] : List Frame).reverse.find?
              (fun f => keyOf stdRegistry f == k)).map (valueOf stdRegistry)) ∧
      (m.map Prod.fst).Nodup :=
  decode_frames_last_write_wins stdRegistry
    [⟨1, 0x67, [0x01, 0x10]⟩, ⟨1, 0x67, [0xFF, 0xF6]⟩] (by decide) (by decide) (by decide)

/-- Claim C2: the helpers read multi-byte integers big-endian, and the 16- and
24-bit signed conversions perform two's-complement sign extension (above the
maximal positive value, subtract 2^width); consequently the signed results are
congruent to the unsigned reads modulo 2^width and lie in the signed ranges. -/
theorem bytes_conversions_signed (b0 b1 c0 c1 c2 : Nat)
    (h0 : b0 < 256) (h1 : b1 < 256) (k0 : c0 < 256) (k1 : c1 < 256) (k2 : c2 < 256) :
    bytes_to_uint16 [b0, b1] = 256 * b0 + b1 ∧
    bytes_to_int16 [b0, b1]
      = (if 0x7FFF < 256 * b0 + b1 then (256 * b0 + b1 : Int) - 0x10000
          else (256 * b0 + b1 : Int)) ∧
    bytes_to_uint24 [c0, c1, c2] = 65536 * c0 + 256 * c1 + c2 ∧
    bytes_to_int24 [c0, c1, c2]
      = (if 0x7FFFFF < 65536 * c0 + 256 * c1 + c2
          then (65536 * c0 + 256 * c1 + c2 : Int) - 0x1000000
          else (65536 * c0 + 256 * c1 + c2 : Int)) ∧
    bytes_to_int16 [b0, b1] % 65536 = ((256 * b0 + b1 : Nat) : Int) ∧
    -32768 ≤ bytes_to_int16 [b0, b1] ∧ bytes_to_int16 [b0, b1] < 32768 ∧
    bytes_to_int24 [c0, c1, c2] % 16777216 = ((65536 * c0 + 256 * c1 + c2 : Nat) : Int) ∧
    -8388608 ≤ bytes_to_int24 [c0, c1, c2] ∧ bytes_to_int24 [c0, c1, c2] < 8388608 := by
  have hu16 : bytes_to_uint16 [b0, b1] = 256 * b0 + b1 := by
    show (b0 % 256) * 256 + b1 % 256 = 256 * b0 + b1
    rw [Nat.mod_eq_of_lt h0, Nat.mod_eq_of_lt h1]
    ring
  have hu24 : bytes_to_uint24 [c0, c1, c2] = 65536 * c0 + 256 * c1 + c2 := by
    show ((c0 % 256) * 65536 + (c1 % 256) * 256 + c2 % 256) % 0x1000000
        = 65536 * c0 + 256 * c1 + c2
    rw [Nat.mod_eq_of_lt k0, Nat.mod_eq_of_lt k1, Nat.mod_eq_of_lt k2]
    rw [Nat.mod_eq_of_lt (by omega)]
    ring
  have h16 : bytes_to_int16 [b0, b1]
      = (if 0x7FFF < 256 * b0 + b1 then (256 * b0 + b1 : Int) - 0x10000
          else (256 * b0 + b1 : Int)) := by
    rw [bytes_to_int16, hu16]
    split <;> push_cast <;> ring
  have h24 : bytes_to_int24 [c0, c1, c2]
      = (if 0x7FFFFF < 65536 * c0 + 256 * c1 + c2
          then (65536 * c0 + 256 * c1 + c2 : Int) - 0x1000000
          else (65536 * c0 + 256 * c1 + c2 : Int)) := by
    rw [bytes_to_int24, hu24]
    split <;> push_cast <;> ring
  refine ⟨hu16, h16, hu24, h24, ?_, ?_, ?_, ?_, ?_, ?_⟩
  · rw [h16]; split <;> push_cast <;> omega
  · rw [h16]; split <;> omega
  · rw [h16]; split <;> omega
  · rw [h24]; split <;> push_cast <;> omega
  · rw [h24]; split <;> omega
  · rw [h24]; split <;> omega

/-- Witness for C2 at the fixture bytes `FF F6` and `F9 CC E6`. -/
theorem bytes_conversions_signed_witness :
    bytes_to_uint16 [0xFF, 0xF6] = 256 * 0xFF + 0xF6 ∧
    bytes_to_int16 [0xFF, 0xF6]
      = (if 0x7FFF < 256 * 0xFF + 0xF6 then (256 * 0xFF + 0xF6 : Int) - 0x10000
          else (256 * 0xFF + 0xF6 : Int)) ∧
    bytes_to_uint24 [0xF9, 0xCC, 0xE6] = 65536 * 0xF9 + 256 * 0xCC + 0xE6 ∧
    bytes_to_int24 [0xF9, 0xCC, 0xE6]
      = (if 0x7FFFFF < 65536 * 0xF9 + 256 * 0xCC + 0xE6
          then (65536 * 0xF9 + 256 * 0xCC + 0xE6 : Int) - 0x1000000
          else (65536 * 0xF9 + 256 * 0xCC + 0xE6 : Int)) ∧
    bytes_to_int16 [0xFF, 0xF6] % 65536 = ((256 * 0xFF + 0xF6 : Nat) : Int) ∧
    -32768 ≤ bytes_to_int16 [0xFF, 0xF6] ∧ bytes_to_int16 [0xFF, 0xF6] < 32768 ∧
    bytes_to_int24 [0xF9, 0xCC, 0xE6] % 16777216
      = ((65536 * 0xF9 + 256 * 0xCC + 0xE6 : Nat) : Int) ∧
    -8388608 ≤ bytes_to_int24 [0xF9, 0xCC, 0xE6] ∧
    bytes_to_int24 [0xF9, 0xCC, 0xE6] < 8388608 :=
  bytes_conversions_signed 0xFF 0xF6 0xF9 0xCC 0xE6
    (by decide) (by decide) (by decide) (by decide) (by decide)

/-- Claim C3 counterexample: two `BadPayloadFormat` failures of different causes —
a declared two-byte width overrunning the buffer, and a residual trailing byte —
return the very same error value, the bare enumerator of the five-valued `Error`
enumeration, so the error cannot carry a human-readable reason string. -/
theorem decode_badPayloadFormat_no_reason :
    decode stdRegistry [1, 0x67, 1] = .error .badPayloadFormat ∧
    decode stdRegistry [1, 0x67, 1, 0x10, 2] = .error .badPayloadFormat ∧
    decode stdRegistry [1, 0x67, 1] = decode stdRegistry [1, 0x67, 1, 0x10, 2] :=
  ⟨rfl, rfl, rfl⟩

/-- Claim C3 (amended): with a registry the API can produce, decode fails with
`badPayloadFormat` exactly when the sequential frame walk either meets a declared
byte width overrunning the buffer or leaves residual bytes past the last complete
frame; the error is the bare `badPayloadFormat` enumerator, carrying no reason
string. -/
theorem decode_badPayloadFormat_iff (reg : Registry) (bytes : List Nat)
    (hreg : validRegistry reg = true) :
    decode reg bytes = .error .badPayloadFormat ↔ specBadFormat reg bytes = true := by
  cases bytes with
  | nil => simp [decode, specBadFormat, specBadFormatAux]
  | cons b bs =>
    rw [decode, if_neg (by simp)]
    exact decodeAux_badFormat_iff hreg (b :: bs).length (b :: bs) []

/-- Witness for C3 at the truncated temperature frame. -/
theorem decode_badPayloadFormat_iff_witness :
    decode stdRegistry [1, 0x67, 0x01] = .error .badPayloadFormat ↔
      specBadFormat stdRegistry [1, 0x67, 0x01] = true :=
  decode_badPayloadFormat_iff stdRegistry [1, 0x67, 0x01] (by decide)

/-- Claim C4: add_custom_type returns false and leaves the registry unchanged when
the id is already present, the width is zero or the rule is absent; otherwise it
returns true and inserts exactly one new non-standard descriptor with the given id,
name, width and rule. -/
theorem add_custom_type_spec (reg : Registry) (id : Nat) (nm : String) (size : Nat)
    (f : Option (List Nat → JVal)) :
    (hasType reg id = true ∨ size = 0 ∨ f = Option.none →
      addCustomType reg id nm size f = (false, reg)) ∧
    (hasType reg id = false → size ≠ 0 → ∀ g, f = Option.some g →
      addCustomType reg id nm size f
        = (true, reg ++ [⟨nm, size, id, false, Option.some g⟩])) := by
  constructor
  · intro h
    rcases h with h | h | h
    · rw [addCustomType, if_pos h]
    · rw [addCustomType]
      by_cases hh : hasType reg id = true
      · rw [if_pos hh]
      · rw [if_neg hh]
        by_cases hn : f.isNone = true
        · rw [if_pos hn]
        · rw [if_neg hn, if_pos h]
    · subst h
      rw [addCustomType]
      by_cases hh : hasType reg id = true
      · rw [if_pos hh]
      · rw [if_neg hh, if_pos (by rfl)]
  · intro hh hs g hf
    subst hf
    rw [addCustomType, if_neg (by rw [hh]; exact Bool.false_ne_true),
        if_neg (by simp), if_neg hs]

/-- Witness for C4: registering `Counter` at the free id `0xA0` succeeds and
appends the descriptor; registering at the standard id `0x67` fails without
mutation. -/
theorem add_custom_type_spec_witness :
    addCustomType stdRegistry 0xA0 "Counter" 2 (Option.some counterRule)
        = (true, stdRegistry ++ [⟨"Counter", 2, 0xA0, false, Option.some counterRule⟩]) ∧
    addCustomType stdRegistry 0x67 "CustomTemp" 2 (Option.some counterRule)
        = (false, stdRegistry) :=
  ⟨(add_custom_type_spec stdRegistry 0xA0 "Counter" 2 (Option.some counterRule)).2
      (by decide) (by decide) counterRule rfl,
    (add_custom_type_spec stdRegistry 0x67 "CustomTemp" 2 (Option.some counterRule)).1
      (Or.inl (by decide))⟩

/-- Claim C5: remove_custom_type returns false (no mutation) when the id is absent
or names a standard descriptor; removing a custom id returns true, afterwards
contains is false for that id and any decode whose frame walk reaches a header with
that type id fails with `unknownDataType`. -/
theorem remove_custom_type_spec (reg : Registry) (id : Nat)
    (hreg : validRegistry reg = true) :
    (lookup reg id = Option.none → removeCustomType reg id = (false, reg)) ∧
    (∀ dt, lookup reg id = Option.some dt → dt.standard = true →
      removeCustomType reg id = (false, reg)) ∧
    (∀ dt, lookup reg id = Option.some dt → dt.standard = false →
      removeCustomType reg id = (true, reg.eraseP (fun d => d.type_id == id)) ∧
      hasType (reg.eraseP (fun d => d.type_id == id)) id = false ∧
      (∀ (fs : List Frame) (ch ty : Nat) (rest : List Nat),
        (∀ f ∈ fs, frameOK (reg.eraseP (fun d => d.type_id == id)) f = true) →
        ty % 256 = id →
        decode (reg.eraseP (fun d => d.type_id == id)) (encodeFrames fs ++ ch :: ty :: rest)
          = .error .unknownDataType)) := by
  refine ⟨?_, ?_, ?_⟩
  · intro h
    rw [removeCustomType, h]
  · intro dt hdt hstd
    simp only [removeCustomType, hdt]
    rw [if_pos hstd]
  · intro dt hdt hstd
    have herase := validRegistry_eraseP hreg (fun d => d.type_id == id)
    have hnone : lookup (reg.eraseP (fun d => d.type_id == id)) id = Option.none :=
      lookup_eraseP id (validRegistry_nodup hreg)
    refine ⟨?_, ?_, ?_⟩
    · simp only [removeCustomType, hdt]
      rw [if_neg (by rw [hstd]; exact Bool.false_ne_true)]
    · rw [hasType, hnone]
      rfl
    · intro fs ch ty rest hfs hty
      exact decode_unknown_of_lookup_none herase hfs (by rw [hty]; exact hnone) ch rest

/-- Witness for C5: removing the previously registered custom id `0xA0` succeeds;
afterwards the id is unregistered and decoding a buffer opening with a `0xA0`
header fails with `unknownDataType`. -/
theorem remove_custom_type_spec_witness :
    removeCustomType regWithCounter 0xA0
        = (true, regWithCounter.eraseP (fun d => d.type_id == 0xA0)) ∧
    hasType (regWithCounter.eraseP (fun d => d.type_id == 0xA0)) 0xA0 = false ∧
    decode (regWithCounter.eraseP (fun d => d.type_id == 0xA0))
        (encodeFrames [] ++ 1 :: 0xA0 :: [0]) = .error .unknownDataType := by
  have h := (remove_custom_type_spec regWithCounter 0xA0 (by decide)).2.2
    ⟨"Counter", 2, 0xA0, false, Option.some counterRule⟩ rfl rfl
  exact ⟨h.1, h.2.1, h.2.2 [] 1 0xA0 [0] (by intro f hf; cases hf) rfl⟩

/-- Claim C6: temperature frames (type `0x67`) decode as the signed 16-bit
big-endian value divided by ten; the fixtures decode to exactly 27.2 and -1.  The
decoded numbers are exact rationals here; since each C++ computation is a single
correctly-rounded IEEE-754 division of exactly representable operands and rounding
is a function, equality of the exact values transports to exact equality of the
doubles with the literals 27.2 and -1.0. -/
theorem decode_temperature_fixtures :
    decode stdRegistry [0x01, 0x67, 0x01, 0x10]
        = .ok [("Temperature_1", .num (27.2 : ℚ))] ∧
    decode stdRegistry [0x01, 0x67, 0xFF, 0xF6]
        = .ok [("Temperature_1", .num (-1 : ℚ))] := by
  constructor
  · have h1 : decode stdRegistry [0x01, 0x67, 0x01, 0x10]
        = .ok [("Temperature_1", .num ((272 : ℚ) / 10))] := rfl
    rw [h1]
    norm_num
  · have h2 : decode stdRegistry [0x01, 0x67, 0xFF, 0xF6]
        = .ok [("Temperature_1", .num (((-10 : ℤ) : ℚ) / 10))] := rfl
    rw [h2]
    norm_num

/-- Claim C7 counterexample: a buffer whose frames produce `Temperature_1` and then
`Humidity_2` decodes to an object storing `Humidity_2` first — `nlohmann::json`
objects are `std::map`-backed and order entries by key, not by frame order. -/
theorem decode_entry_order_not_frame_order :
    jsonKeys (decode stdRegistry [1, 0x67, 0x00, 0xFA, 2, 0x68, 0x02, 0x58])
        = ["Humidity_2", "Temperature_1"] ∧
    ["Humidity_2", "Temperature_1"] ≠ ["Temperature_1", "Humidity_2"] := by
  exact ⟨by decide, by decide⟩

/-- Claim C7 (amended): for every successful decode, the entries of the returned
mapping are strictly ordered by the lexicographic key comparison of the backing
`std::map` — not by the order of the frames in the buffer. -/
theorem decode_output_sorted_by_key (reg : Registry) (bytes : List Nat) (m : JsonObj)
    (h : decode reg bytes = .ok m) : List.Chain' keyLt m := by
  rw [decode] at h
  by_cases he : bytes.isEmpty = true
  · rw [if_pos he] at h
    exact Except.noConfusion h
  · rw [if_neg he] at h
    exact decodeAux_sorted reg bytes.length bytes [] m List.chain'_nil h

/-- Witness for C7 at the two-frame buffer of the counterexample. -/
theorem decode_output_sorted_by_key_witness :
    List.Chain' keyLt
      [("Humidity_2", JVal.num (((600 : ℕ) : ℚ) / 10)),
        ("Temperature_1", JVal.num (((250 : ℤ) : ℚ) / 10))] :=
  decode_output_sorted_by_key stdRegistry [1, 0x67, 0x00, 0xFA, 2, 0x68, 0x02, 0x58]
    [("Humidity_2", JVal.num (((600 : ℕ) : ℚ) / 10)),
      ("Temperature_1", JVal.num (((250 : ℤ) : ℚ) / 10))] rfl

/-- Claim C8 counterexample: two buffers with different offending type identifiers
(`0x50` and `0x51`) fail with the very same error value, the bare enumerator
`unknownDataType`, so the error does not carry the offending identifier. -/
theorem decode_unknownDataType_no_id :
    decode stdRegistry [1, 0x50, 0] = .error .unknownDataType ∧
    decode stdRegistry [1, 0x51, 0] = .error .unknownDataType ∧
    decode stdRegistry [1, 0x50, 0] = decode stdRegistry [1, 0x51, 0] :=
  ⟨rfl, rfl, rfl⟩

/-- Claim C8 (amended): whenever the frame walk reaches a header (at least two
bytes) whose type byte has no registry entry, with all earlier frames valid, decode
fails with `unknownDataType`; the error is the bare enumerator and carries no
identifier. -/
theorem decode_unknown_type (reg : Registry) (fs : List Frame) (ch ty : Nat)
    (rest : List Nat) (hreg : validRegistry reg = true)
    (hfs : ∀ f ∈ fs, frameOK reg f = true)
    (hty : lookup reg (ty % 256) = Option.none) :
    decode reg (encodeFrames fs ++ ch :: ty :: rest) = .error .unknownDataType :=
  decode_unknown_of_lookup_none hreg hfs hty ch rest

/-- Witness for C8: a valid temperature frame followed by a header with the
unregistered id `0xFF`. -/
theorem decode_unknown_type_witness :
    decode stdRegistry (encodeFrames [⟨1, 0x67, [0x01, 0x10]⟩] ++ 2 :: 0xFF :: [0])
      = .error .unknownDataType :=
  decode_unknown_type stdRegistry [⟨1, 0x67, [0x01, 0x10]⟩] 2 0xFF [0]
    (by decide) (by decide) rfl

/-- Claim C9: the instrumented walk computes the same result as decode, and the
frame loop runs at most ⌊buffer length / 2⌋ iterations (each iteration advances the
cursor by the 2 header bytes plus the frame width), so decode terminates on every
buffer and every registry state. -/
theorem decode_loop_iteration_bound (reg : Registry) (bytes : List Nat) :
    (decodeInstr reg bytes).1 = decode reg bytes ∧
    (decodeInstr reg bytes).2.1 ≤ bytes.length / 2 := by
  rw [decodeInstr, decode]
  by_cases he : bytes.isEmpty = true
  · rw [if_pos he, if_pos he]
    exact ⟨rfl, by simp⟩
  · rw [if_neg he, if_neg he]
    obtain ⟨h1, h2, h3⟩ := decodeInstrAux_spec reg bytes.length bytes []
    exact ⟨h1, h3⟩

/-- Claim C10: decode never mutates the registry — the registry state threaded
through the instrumented walk is returned unchanged for every buffer and registry,
the walk computes the same result as decode, and has_type answers identically for
every id afterwards. -/
theorem decode_preserves_registry (reg : Registry) (bytes : List Nat) :
    (decodeInstr reg bytes).2.2 = reg ∧
    (decodeInstr reg bytes).1 = decode reg bytes ∧
    (∀ id, hasType (decodeInstr reg bytes).2.2 id = hasType reg id) := by
  rw [decodeInstr, decode]
  by_cases he : bytes.isEmpty = true
  · rw [if_pos he, if_pos he]
    exact ⟨rfl, rfl, fun _ => rfl⟩
  · rw [if_neg he, if_neg he]
    obtain ⟨h1, h2, h3⟩ := decodeInstrAux_spec reg bytes.length bytes []
    exact ⟨h2, h1, fun i => by rw [h2]⟩

end Cayene
